import Mathlib

/-!
Shallow embedding of the response-normalization pipeline of the
reg-extractor service (src/index.ts, POST /api/extract handler).

The handler (lines 48-120 of index.ts) does, in order:
  1. read the API key from the environment; a falsy key (absent or empty)
     yields a 500 misconfiguration response;
  2. read the `image` field of the request body; a falsy value yields 400;
  3. call the upstream inference API; a non-ok HTTP status yields 502 with
     the upstream message or a generic fallback;
  4. take the reply text, match the regex /\x7b[\s\S]*\x7d/ against it
     (first opening brace to last closing brace, greedy); no match yields
     a fixed 502;
  5. JSON.parse the matched substring; a throw is caught and yields 500
     with the exception message;
  6. coerce `(parsed.results ?? []).map(r => (\x7b type, value, uncertain \x7d))`
     elementwise and answer 200 with the coerced list; any throw inside
     (e.g. property access on null, `.map` on a non-array) is caught by the
     surrounding try/catch and yields 500.

JavaScript dynamic values produced by JSON.parse are modelled by `Json`;
`undefined` (absent property) is modelled by `Option Json` with `none`.
JS property access, nullish coalescing `??`, truthiness `!!`, and the
behaviour of `JSON.parse` (ECMA-404 grammar, last duplicate key wins) are
modelled explicitly below.
-/

/-- A JavaScript value produced by `JSON.parse`: null, booleans, numbers,
strings, arrays and objects. A JSON numeral is a finite decimal; it is
modelled exactly as `mantissa / 10 ^ scale`, which loses nothing any claim
depends on (the claims never compute with numbers, they only carry them
around and test them for zero). -/
inductive Json where
  | null : Json
  | bool : Bool → Json
  | num : Int → Nat → Json
  | str : String → Json
  | arr : List Json → Json
  | obj : List (String × Json) → Json

/-- Property lookup in a JS object: the LAST binding of a key wins, as in
an object built by `JSON.parse` where later duplicate keys overwrite
earlier ones. `none` models `undefined`. -/
def jlookup : List (String × Json) → String → Option Json
  | [], _ => none
  | (k', v) :: rest, k =>
    match jlookup rest k with
    | some r => some r
    | none => if k' = k then some v else none

/-- JS property access `j.k`: on `null` it throws a TypeError; on an object
it looks the key up; on any other value (boxed primitive, array) it is
`undefined`. The error string stands for the message of the thrown exception. -/
def getProp (j : Json) (k : String) : Except String (Option Json) :=
  match j with
  | .null => .error ("Cannot read properties of null (reading " ++ k ++ ")")
  | .obj fs => .ok (jlookup fs k)
  | _ => .ok none

/-- JS truthiness of a possibly-undefined value, as tested by `!!v` and
`if (!v)`: `undefined`, `null`, `false`, `0` and `""` are falsy; every
other value (including empty arrays and objects) is truthy. -/
def truthy : Option Json → Bool
  | none => false
  | some .null => false
  | some (.bool b) => b
  | some (.num m _) => decide (m ≠ 0)
  | some (.str s) => decide (s ≠ "")
  | some (.arr _) => true
  | some (.obj _) => true

/-- JS nullish coalescing `v ?? d`: `undefined` and `null` fall back to the
default, everything else passes through. -/
def nullishDefault (v : Option Json) (d : Json) : Json :=
  match v with
  | none => d
  | some .null => d
  | some j => j

/-- The `type` tag of an output record: the TS union `"reg" | "vin"` of
`interface ExtractResult` (index.ts lines 42-46). -/
inductive Kind where
  | reg : Kind
  | vin : Kind
deriving DecidableEq

/-- One coerced output record. `value` keeps type `Json` because
`r.value ?? ""` passes any non-nullish runtime value through unchanged,
whatever the TS annotation promises. -/
structure ExtractResult where
  type : Kind
  value : Json
  uncertain : Bool

/-- JS strict equality `v === "vin"` of a possibly-undefined value against
the string literal: true exactly when the value is the string "vin". -/
def isVinTag : Option Json → Bool
  | some (.str s) => s == "vin"
  | _ => false

/-- The element coercion of index.ts lines 109-113:
`(\x7b type: r.type === "vin" ? "vin" : "reg", value: r.value ?? "",
uncertain: !!r.uncertain \x7d)`. Property access throws on a null element,
which propagates as an `Except.error`. -/
def coerceElem (r : Json) : Except String ExtractResult := do
  let t ← getProp r "type"
  let v ← getProp r "value"
  let u ← getProp r "uncertain"
  pure { type := if isVinTag t then Kind.vin else Kind.reg
       , value := nullishDefault v (.str "")
       , uncertain := truthy u }

/-- `results.map(coerceElem)`: elementwise coercion, left to right; the
first thrown exception aborts the whole map. -/
def coerceResults : List Json → Except String (List ExtractResult)
  | [] => .ok []
  | r :: rs =>
    match coerceElem r with
    | .error e => .error e
    | .ok y =>
      match coerceResults rs with
      | .error e => .error e
      | .ok ys => .ok (y :: ys)

/-- The body of an HTTP response of the handler: either the success payload
`\x7b results \x7d` or an error payload `\x7b error \x7d`. -/
inductive RespBody where
  | results : List ExtractResult → RespBody
  | error : String → RespBody

/-- An HTTP response: status code and JSON body. -/
structure Resp where
  status : Nat
  body : RespBody

/-- The post-parse normalization of index.ts lines 108-113:
`(parsed.results ?? []).map(...)`. Reading `.results`, defaulting with
`??`, calling `.map` on a non-array, and each element coercion can all
throw; the throw is surfaced as `Except.error`. -/
def normalizeParsed (parsed : Json) : Except String (List ExtractResult) :=
  match getProp parsed "results" with
  | .error e => .error e
  | .ok rv =>
    match nullishDefault rv (.arr []) with
    | .arr xs => coerceResults xs
    | _ => .error "parsed.results.map is not a function"

/-- Index of the last closing brace in a character list, if any. Models the greedy
endpoint of the regex /\x7b[\s\S]*\x7d/. -/
def lastBraceIdx : List Char → Option Nat
  | [] => none
  | c :: cs =>
    match lastBraceIdx cs with
    | some j => some (j + 1)
    | none => if c = '}' then some 0 else none

/-- `text.match(/\x7b[\s\S]*\x7d/)` (index.ts line 102), operationally: the
regex engine tries each start position left to right; at an opening brace
it matches greedily up to the last closing brace strictly after it, and
otherwise advances the start position. -/
def jsMatch : List Char → Option (List Char)
  | [] => none
  | c :: cs =>
    if c = '{' then
      match lastBraceIdx cs with
      | some j => some (c :: cs.take (j + 1))
      | none => jsMatch cs
    else jsMatch cs

/-- JSON insignificant whitespace (ECMA-404): space, tab, line feed,
carriage return. -/
def isJsonWs (c : Char) : Bool :=
  c == ' ' || c == '\t' || c == '\n' || c == '\r'

/-- Drop leading JSON whitespace. -/
def skipWs : List Char → List Char
  | [] => []
  | c :: cs => if isJsonWs c then skipWs cs else c :: cs

/-- ASCII decimal digit test. -/
def isDigitChar (c : Char) : Bool := '0' ≤ c && c ≤ '9'

/-- Numeric value of an ASCII digit. -/
def digitVal (c : Char) : Nat := c.toNat - 48

/-- Split off the longest leading run of ASCII digits. -/
def takeDigits : List Char → List Char × List Char
  | [] => ([], [])
  | c :: cs =>
    if isDigitChar c then
      let (ds, rest) := takeDigits cs
      (c :: ds, rest)
    else ([], c :: cs)

/-- Decimal value of a digit run. -/
def digitsToNat (ds : List Char) : Nat :=
  ds.foldl (fun acc c => 10 * acc + digitVal c) 0

/-- The fractional digits of a JSON number: a dot must be followed by at
least one digit. -/
def parseFrac : List Char → Except String (List Char × List Char)
  | '.' :: rest =>
    let (fds, r) := takeDigits rest
    if fds.isEmpty then .error "Unterminated fractional number in JSON"
    else .ok (fds, r)
  | cs => .ok ([], cs)

/-- The exponent of a JSON number: e or E, optional sign, at least one
digit. -/
def parseExp : List Char → Except String (Int × List Char)
  | [] => .ok (0, [])
  | c :: rest =>
    if c == 'e' || c == 'E' then
      let (esign, r1) : Int × List Char :=
        match rest with
        | '+' :: r => (1, r)
        | '-' :: r => (-1, r)
        | _ => (1, rest)
      let (eds, r2) := takeDigits r1
      if eds.isEmpty then .error "Exponent part is missing a number in JSON"
      else .ok (esign * (digitsToNat eds : Int), r2)
    else .ok (0, c :: rest)

/-- Assemble the exact value of a JSON numeral from sign, integer digits,
fraction digits and exponent, as a mantissa and a power-of-ten scale. -/
def numOfParts (neg : Bool) (ip : Nat) (fds : List Char) (e : Int) : Int × Nat :=
  let mant : Int := (ip * 10 ^ fds.length + digitsToNat fds : Nat)
  let signed : Int := if neg then -mant else mant
  if 0 ≤ e then (signed * (10 ^ e.toNat : Nat), fds.length)
  else (signed, fds.length + (-e).toNat)

/-- A JSON numeral: optional minus, integer part with no superfluous
leading zero, optional fraction, optional exponent. -/
def parseNumber (cs : List Char) : Except String (Json × List Char) := do
  let (neg, cs1) : Bool × List Char :=
    match cs with
    | '-' :: rest => (true, rest)
    | _ => (false, cs)
  let (ids, cs2) := takeDigits cs1
  if ids.isEmpty then .error "No number after minus sign in JSON" else
  if ids.length > 1 && ids.head? == some '0' then
    .error "Unexpected leading zero in JSON"
  else do
    let (fds, cs3) ← parseFrac cs2
    let (e, cs4) ← parseExp cs3
    let (m, sc) := numOfParts neg (digitsToNat ids) fds e
    .ok (.num m sc, cs4)

/-- Translation of a simple JSON string escape. -/
def escChar : Char → Option Char
  | '"' => some '"'
  | '\\' => some '\\'
  | '/' => some '/'
  | 'b' => some (Char.ofNat 8)
  | 'f' => some (Char.ofNat 12)
  | 'n' => some '\n'
  | 'r' => some '\r'
  | 't' => some '\t'
  | _ => none

/-- Value of an ASCII hexadecimal digit. -/
def hexVal (c : Char) : Option Nat :=
  if isDigitChar c then some (digitVal c)
  else if 'a' ≤ c && c ≤ 'f' then some (c.toNat - 87)
  else if 'A' ≤ c && c ≤ 'F' then some (c.toNat - 55)
  else none

/-- Characters of a JSON string body, after the opening quote: plain
characters up to the closing quote, with backslash escapes and four-digit
Unicode escapes, raw control characters rejected. -/
def parseStrChars : List Char → Except String (List Char × List Char)
  | [] => .error "Unterminated string in JSON"
  | '"' :: rest => .ok ([], rest)
  | '\\' :: 'u' :: a :: b :: c :: d :: rest =>
    (match hexVal a, hexVal b, hexVal c, hexVal d with
     | some ha, some hb, some hc, some hd => do
       let (s, r) ← parseStrChars rest
       .ok (Char.ofNat (((ha * 16 + hb) * 16 + hc) * 16 + hd) :: s, r)
     | _, _, _, _ => .error "Bad Unicode escape in JSON")
  | '\\' :: e :: rest =>
    (match escChar e with
     | some c => do
       let (s, r) ← parseStrChars rest
       .ok (c :: s, r)
     | none => .error "Bad escaped character in JSON")
  | c :: rest =>
    if c.toNat < 32 then .error "Bad control character in JSON string"
    else do
      let (s, r) ← parseStrChars rest
      .ok (c :: s, r)

mutual

/-- One JSON value, fuel-bounded recursive descent over the ECMA-404
grammar: literals, strings, numbers, arrays, objects. Returns the value
and the unconsumed remainder. -/
def parseValue : Nat → List Char → Except String (Json × List Char)
  | 0, _ => .error "JSON nesting too deep"
  | fuel + 1, cs =>
    match skipWs cs with
    | [] => .error "Unexpected end of JSON input"
    | 'n' :: 'u' :: 'l' :: 'l' :: rest => .ok (.null, rest)
    | 't' :: 'r' :: 'u' :: 'e' :: rest => .ok (.bool true, rest)
    | 'f' :: 'a' :: 'l' :: 's' :: 'e' :: rest => .ok (.bool false, rest)
    | '"' :: rest => do
      let (s, r) ← parseStrChars rest
      .ok (.str (String.mk s), r)
    | '[' :: rest =>
      (match skipWs rest with
       | ']' :: r => .ok (.arr [], r)
       | r => do
         let (x, r1) ← parseValue fuel r
         let (xs, r2) ← parseArrRest fuel r1
         .ok (.arr (x :: xs), r2))
    | '{' :: rest =>
      (match skipWs rest with
       | '}' :: r => .ok (.obj [], r)
       | r => do
         let (kv, r1) ← parseMember fuel r
         let (kvs, r2) ← parseObjRest fuel r1
         .ok (.obj (kv :: kvs), r2))
    | c :: rest =>
      if c == '-' || isDigitChar c then parseNumber (c :: rest)
      else .error "Unexpected token in JSON"

/-- The remaining elements of a JSON array after the first: comma-separated
values up to the closing bracket. -/
def parseArrRest : Nat → List Char → Except String (List Json × List Char)
  | 0, _ => .error "JSON nesting too deep"
  | fuel + 1, cs =>
    match skipWs cs with
    | ',' :: r => do
      let (x, r1) ← parseValue fuel r
      let (xs, r2) ← parseArrRest fuel r1
      .ok (x :: xs, r2)
    | ']' :: r => .ok ([], r)
    | _ => .error "Expected comma or closing bracket after array element in JSON"

/-- One key-value member of a JSON object: quoted key, colon, value. -/
def parseMember : Nat → List Char → Except String ((String × Json) × List Char)
  | 0, _ => .error "JSON nesting too deep"
  | fuel + 1, cs =>
    match skipWs cs with
    | '"' :: rest => do
      let (k, r1) ← parseStrChars rest
      match skipWs r1 with
      | ':' :: r2 => do
        let (v, r3) ← parseValue fuel r2
        .ok ((String.mk k, v), r3)
      | _ => .error "Expected colon after property name in JSON"
    | _ => .error "Expected property name in JSON"

/-- The remaining members of a JSON object after the first. -/
def parseObjRest : Nat → List Char → Except String (List (String × Json) × List Char)
  | 0, _ => .error "JSON nesting too deep"
  | fuel + 1, cs =>
    match skipWs cs with
    | ',' :: r => do
      let (kv, r1) ← parseMember fuel r
      let (kvs, r2) ← parseObjRest fuel r1
      .ok (kv :: kvs, r2)
    | '}' :: r => .ok ([], r)
    | _ => .error "Expected comma or closing brace after property in JSON"

end

/-- `JSON.parse` on a character list: one JSON value surrounded by
whitespace only. The fuel bound exceeds any possible nesting depth of the
input, so it is never the cause of failure. A thrown SyntaxError is
modelled by `Except.error` with its message. -/
def jsonParse (cs : List Char) : Except String Json := do
  let (j, rest) ← parseValue (cs.length + 1) cs
  match skipWs rest with
  | [] => .ok j
  | _ => .error "Unexpected non-whitespace character after JSON data"

/-- Lines 100-115 plus the catch clause of index.ts, applied to the reply
text: regex match (fixed 502 on failure), JSON.parse (500 with the thrown
message on failure), then `(parsed.results ?? []).map(...)` (500 with the
thrown message on failure), else 200 with the coerced records. -/
def processText (text : List Char) : Resp :=
  match jsMatch text with
  | none => ⟨502, .error "Could not parse response from Claude."⟩
  | some m =>
    match jsonParse m with
    | .error e => ⟨500, .error e⟩
    | .ok parsed =>
      match normalizeParsed parsed with
      | .error e => ⟨500, .error e⟩
      | .ok rs => ⟨200, .results rs⟩

/-- Outcome of the upstream fetch (index.ts lines 62-100): a non-ok HTTP
status with the provider message when its error body has one, a reply whose
extracted text is handed to normalization, or a thrown exception (carrying
a message when the thrown value is an Error). -/
inductive UpstreamOutcome where
  | httpError : Nat → Option String → UpstreamOutcome
  | replyText : List Char → UpstreamOutcome
  | fetchThrow : Option String → UpstreamOutcome

/-- Lines 88-119 of index.ts: 502 for a non-ok upstream status (provider
message or the generic fallback), normalization of the reply text
otherwise; a thrown fetch exception is caught and becomes 500 with the
exception message or the fallback. -/
def handleUpstream : UpstreamOutcome → Resp
  | .httpError status msg =>
    ⟨502, .error (msg.getD ("OpenRouter API error: " ++ toString status))⟩
  | .replyText t => processText t
  | .fetchThrow msg => ⟨500, .error (msg.getD "Unknown error")⟩

/-- The full POST /api/extract handler (index.ts lines 48-120): the falsy
test on the API key comes first, then the falsy test on the `image` field of the body
field, then the upstream call and normalization. The JS string quotes
inside the two diagnostic messages are elided. -/
def handleExtract (apiKey : Option String) (image : Option Json)
    (up : UpstreamOutcome) : Resp :=
  if apiKey = none ∨ apiKey = some "" then
    ⟨500, .error "Server misconfiguration: missing API key"⟩
  else if truthy image then handleUpstream up
  else ⟨400, .error "Missing image field (expected a data URL)"⟩

/-- Index of the first opening brace, if any. -/
def firstBraceIdx : List Char → Option Nat
  | [] => none
  | c :: cs => if c = '{' then some 0 else (· + 1) <$> firstBraceIdx cs

theorem lastBraceIdx_eq_none : ∀ (cs : List Char), lastBraceIdx cs = none →
    ∀ k, cs.get? k ≠ some '}'
  | [], _, k => by simp
  | c :: cs, h, k => by
    unfold lastBraceIdx at h
    cases hrec : lastBraceIdx cs with
    | some j => rw [hrec] at h; exact absurd h (by simp)
    | none =>
      rw [hrec] at h
      by_cases hc : c = '}'
      · simp [hc] at h
      · cases k with
        | zero => simpa using fun he => hc he
        | succ k => simpa using lastBraceIdx_eq_none cs hrec k

theorem lastBraceIdx_spec : ∀ (cs : List Char) (j : Nat), lastBraceIdx cs = some j →
    cs.get? j = some '}' ∧ ∀ k, j < k → cs.get? k ≠ some '}'
  | [], j, h => by simp [lastBraceIdx] at h
  | c :: cs, j, h => by
    unfold lastBraceIdx at h
    cases hrec : lastBraceIdx cs with
    | some j' =>
      rw [hrec] at h
      obtain ⟨hj', hmax⟩ := lastBraceIdx_spec cs j' hrec
      obtain rfl : j' + 1 = j := by simpa using h
      refine ⟨by simpa using hj', ?_⟩
      intro k hk
      cases k with
      | zero => omega
      | succ k => simpa using hmax k (by omega)
    | none =>
      rw [hrec] at h
      by_cases hc : c = '}'
      · obtain rfl : 0 = j := by simpa [hc] using h
        refine ⟨by simpa using hc, ?_⟩
        intro k hk
        cases k with
        | zero => omega
        | succ k => simpa using lastBraceIdx_eq_none cs hrec k
      · simp [hc] at h

theorem lastBraceIdx_isSome (cs : List Char) (k : Nat) (h : cs.get? k = some '}') :
    ∃ j, lastBraceIdx cs = some j := by
  cases hrec : lastBraceIdx cs with
  | some j => exact ⟨j, rfl⟩
  | none => exact absurd h (lastBraceIdx_eq_none cs hrec k)

/-- The operational regex model selects exactly the span from the first
opening brace to the last closing brace, whenever an opening brace at `i`
and a later closing brace at `j` delimit the match. -/
theorem jsMatch_first_last : ∀ (cs : List Char) (i j : Nat),
    cs.get? i = some '{' → (∀ k, k < i → cs.get? k ≠ some '{') →
    cs.get? j = some '}' → (∀ k, j < k → cs.get? k ≠ some '}') →
    i < j → jsMatch cs = some ((cs.drop i).take (j + 1 - i))
  | [], i, j, hi, _, _, _, _ => by simp at hi
  | c :: cs, i, j, hi, hfirst, hj, hlast, hij => by
    cases i with
    | zero =>
      obtain rfl : c = '{' := by simpa using hi
      obtain ⟨j', rfl⟩ : ∃ j', j = j' + 1 := ⟨j - 1, by omega⟩
      have hj' : cs.get? j' = some '}' := by simpa using hj
      obtain ⟨m, hm⟩ := lastBraceIdx_isSome cs j' hj'
      obtain ⟨hm1, hm2⟩ := lastBraceIdx_spec cs m hm
      obtain rfl : m = j' := by
        rcases Nat.lt_trichotomy m j' with hlt | heq | hgt
        · exact absurd hj' (hm2 j' hlt)
        · exact heq
        · exact absurd (by simpa using hm1) (hlast (m + 1) (by omega))
      simp [jsMatch, hm]
    | succ i' =>
      have hc : ¬ c = '{' := fun he => hfirst 0 (Nat.succ_pos i') (by simpa using he)
      obtain ⟨j', rfl⟩ : ∃ j', j = j' + 1 := ⟨j - 1, by omega⟩
      have step : jsMatch (c :: cs) = jsMatch cs := by
        conv_lhs => rw [jsMatch.eq_def]
        simp [hc]
      rw [step]
      have ih := jsMatch_first_last cs i' j'
        (by simpa using hi)
        (fun k hk => by simpa using hfirst (k + 1) (by omega))
        (by simpa using hj)
        (fun k hk => by simpa using hlast (k + 1) (by omega))
        (by omega)
      rw [ih]
      simp [List.drop_succ_cons]

/-- When no opening brace is followed by a later closing brace, the regex
does not match. -/
theorem jsMatch_eq_none : ∀ (cs : List Char),
    (∀ i j, i < j → cs.get? i = some '{' → cs.get? j ≠ some '}') →
    jsMatch cs = none
  | [], _ => rfl
  | c :: cs, h => by
    have hrest : jsMatch cs = none :=
      jsMatch_eq_none cs fun i j hij hi hj =>
        h (i + 1) (j + 1) (by omega) (by simpa using hi) (by simpa using hj)
    by_cases hc : c = '{'
    · have hnone : lastBraceIdx cs = none := by
        cases hrec : lastBraceIdx cs with
        | none => rfl
        | some m =>
          obtain ⟨hm1, _⟩ := lastBraceIdx_spec cs m hrec
          exact absurd (by simpa using hm1)
            (h 0 (m + 1) (by omega) (by simpa using hc))
      conv_lhs => rw [jsMatch.eq_def]
      simp [hc, hnone, hrest]
    · conv_lhs => rw [jsMatch.eq_def]
      simp [hc, hrest]

theorem coerceElem_ok : ∀ (r : Json) (y : ExtractResult), coerceElem r = .ok y →
    ∃ t v u, getProp r "type" = .ok t ∧ getProp r "value" = .ok v ∧
      getProp r "uncertain" = .ok u ∧
      y = ⟨if isVinTag t then Kind.vin else Kind.reg, nullishDefault v (.str ""), truthy u⟩
  | .null, _, h => nomatch h
  | .bool b, y, h => ⟨none, none, none, rfl, rfl, rfl, (Except.ok.inj h).symm⟩
  | .num m s, y, h => ⟨none, none, none, rfl, rfl, rfl, (Except.ok.inj h).symm⟩
  | .str s, y, h => ⟨none, none, none, rfl, rfl, rfl, (Except.ok.inj h).symm⟩
  | .arr xs, y, h => ⟨none, none, none, rfl, rfl, rfl, (Except.ok.inj h).symm⟩
  | .obj fs, y, h =>
    ⟨jlookup fs "type", jlookup fs "value", jlookup fs "uncertain",
      rfl, rfl, rfl, (Except.ok.inj h).symm⟩

theorem coerceElem_isOk : ∀ (r : Json), r ≠ Json.null → ∃ y, coerceElem r = .ok y
  | .null, h => absurd rfl h
  | .bool _, _ => ⟨_, rfl⟩
  | .num _ _, _ => ⟨_, rfl⟩
  | .str _, _ => ⟨_, rfl⟩
  | .arr _, _ => ⟨_, rfl⟩
  | .obj _, _ => ⟨_, rfl⟩

theorem coerceResults_ok_get : ∀ (xs : List Json) (ys : List ExtractResult),
    coerceResults xs = .ok ys → ∀ i r, xs.get? i = some r →
    ∃ y, ys.get? i = some y ∧ coerceElem r = .ok y
  | [], _, _, i, r, hr => by simp at hr
  | x :: xs, ys, h, i, r, hr => by
    rw [coerceResults] at h
    cases hx : coerceElem x with
    | error e => rw [hx] at h; exact absurd h (by simp)
    | ok y =>
      rw [hx] at h
      cases hrest : coerceResults xs with
      | error e => rw [hrest] at h; exact absurd h (by simp)
      | ok ys' =>
        rw [hrest] at h
        obtain rfl : y :: ys' = ys := by simpa using h
        cases i with
        | zero =>
          obtain rfl : x = r := by simpa using hr
          exact ⟨y, by simp, hx⟩
        | succ i =>
          obtain ⟨z, hz1, hz2⟩ := coerceResults_ok_get xs ys' hrest i r (by simpa using hr)
          exact ⟨z, by simpa using hz1, hz2⟩

theorem coerceResults_ok_length : ∀ (xs : List Json) (ys : List ExtractResult),
    coerceResults xs = .ok ys → ys.length = xs.length
  | [], ys, h => by cases Except.ok.inj h; rfl
  | x :: xs, ys, h => by
    rw [coerceResults] at h
    cases hx : coerceElem x with
    | error e => rw [hx] at h; exact absurd h (by simp)
    | ok y =>
      rw [hx] at h
      cases hrest : coerceResults xs with
      | error e => rw [hrest] at h; exact absurd h (by simp)
      | ok ys' =>
        rw [hrest] at h
        obtain rfl : y :: ys' = ys := by simpa using h
        simpa using coerceResults_ok_length xs ys' hrest

theorem coerceResults_isOk : ∀ (xs : List Json), (∀ r ∈ xs, r ≠ Json.null) →
    ∃ ys, coerceResults xs = .ok ys
  | [], _ => ⟨[], rfl⟩
  | x :: xs, h => by
    obtain ⟨y, hy⟩ := coerceElem_isOk x (h x (by simp))
    obtain ⟨ys, hys⟩ := coerceResults_isOk xs (fun r hr => h r (by simp [hr]))
    exact ⟨y :: ys, by simp [coerceResults, hy, hys]⟩

theorem isVinTag_eq_true_iff (t : Option Json) :
    isVinTag t = true ↔ t = some (Json.str "vin") := by
  cases t with
  | none => simp [isVinTag]
  | some j => cases j <;> simp [isVinTag]

theorem firstBraceIdx_eq_none : ∀ (cs : List Char), firstBraceIdx cs = none →
    ∀ k, cs.get? k ≠ some '{'
  | [], _, k => by simp
  | c :: cs, h, k => by
    unfold firstBraceIdx at h
    by_cases hc : c = '{'
    · simp [hc] at h
    · rw [if_neg hc] at h
      have hrec : firstBraceIdx cs = none := by
        cases hrec : firstBraceIdx cs with
        | none => rfl
        | some i => rw [hrec] at h; exact absurd h (by simp)
      cases k with
      | zero => simpa using fun he => hc he
      | succ k => simpa using firstBraceIdx_eq_none cs hrec k

theorem firstBraceIdx_spec : ∀ (cs : List Char) (i : Nat), firstBraceIdx cs = some i →
    cs.get? i = some '{' ∧ ∀ k, k < i → cs.get? k ≠ some '{'
  | [], i, h => by simp [firstBraceIdx] at h
  | c :: cs, i, h => by
    unfold firstBraceIdx at h
    by_cases hc : c = '{'
    · obtain rfl : 0 = i := by simpa [hc] using h
      exact ⟨by simpa using hc, fun k hk => by omega⟩
    · rw [if_neg hc] at h
      cases hrec : firstBraceIdx cs with
      | none => rw [hrec] at h; exact absurd h (by simp)
      | some i' =>
        rw [hrec] at h
        obtain rfl : i' + 1 = i := by simpa using h
        obtain ⟨h1, h2⟩ := firstBraceIdx_spec cs i' hrec
        refine ⟨by simpa using h1, ?_⟩
        intro k hk
        cases k with
        | zero => simpa using fun he => hc he
        | succ k => simpa using h2 k (by omega)

theorem firstBraceIdx_isSome (cs : List Char) (k : Nat) (h : cs.get? k = some '{') :
    ∃ i, firstBraceIdx cs = some i := by
  cases hrec : firstBraceIdx cs with
  | some i => exact ⟨i, rfl⟩
  | none => exact absurd h (firstBraceIdx_eq_none cs hrec k)

/-- C2: the substring handed to JSON.parse is exactly the span from the
first opening brace of the reply text to its last closing brace, and the
regex matches whenever some opening brace is followed by a later closing
brace. -/
theorem c2_greedy_first_to_last (cs : List Char)
    (hex : ∃ i j, i < j ∧ cs.get? i = some '{' ∧ cs.get? j = some '}') :
    ∃ i j, i < j ∧
      cs.get? i = some '{' ∧ (∀ k, k < i → cs.get? k ≠ some '{') ∧
      cs.get? j = some '}' ∧ (∀ k, j < k → cs.get? k ≠ some '}') ∧
      jsMatch cs = some ((cs.drop i).take (j + 1 - i)) := by
  obtain ⟨i0, j0, hij0, hi0, hj0⟩ := hex
  obtain ⟨i, hi⟩ := firstBraceIdx_isSome cs i0 hi0
  obtain ⟨hi1, hi2⟩ := firstBraceIdx_spec cs i hi
  obtain ⟨j, hj⟩ := lastBraceIdx_isSome cs j0 hj0
  obtain ⟨hj1, hj2⟩ := lastBraceIdx_spec cs j hj
  have hii : i ≤ i0 := by
    by_contra hlt
    exact hi2 i0 (by omega) hi0
  have hjj : j0 ≤ j := by
    by_contra hlt
    exact hj2 j0 (by omega) hj0
  have hij : i < j := by omega
  exact ⟨i, j, hij, hi1, hi2, hj1, hj2, jsMatch_first_last cs i j hi1 hi2 hj1 hj2 hij⟩

theorem c2_witness :
    ∃ i j, i < j ∧
      ("ab\x7bcd\x7de".data).get? i = some '{' ∧
      (∀ k, k < i → ("ab\x7bcd\x7de".data).get? k ≠ some '{') ∧
      ("ab\x7bcd\x7de".data).get? j = some '}' ∧
      (∀ k, j < k → ("ab\x7bcd\x7de".data).get? k ≠ some '}') ∧
      jsMatch "ab\x7bcd\x7de".data =
        some ((("ab\x7bcd\x7de".data).drop i).take (j + 1 - i)) :=
  c2_greedy_first_to_last _ ⟨2, 5, by omega, rfl, rfl⟩

/-- C3: a reply text in which no opening brace is followed by a later
closing brace makes the handler answer 502 with the fixed parse-failure
message (no crash, no success body). -/
theorem c3_no_brace_pair_502 (text : List Char)
    (h : ∀ j, j < text.length → ∀ i, i < j →
      ¬(text.get? i = some '{' ∧ text.get? j = some '}')) :
    processText text = ⟨502, RespBody.error "Could not parse response from Claude."⟩ := by
  have hnone : jsMatch text = none := by
    apply jsMatch_eq_none
    intro i j hij hi hj
    obtain ⟨hjlen, _⟩ := List.get?_eq_some.mp hj
    exact h j hjlen i hij ⟨hi, hj⟩
  simp [processText, hnone]

theorem c3_witness :
    processText "The image shows no readable plates.".data =
      ⟨502, RespBody.error "Could not parse response from Claude."⟩ :=
  c3_no_brace_pair_502 _ (by decide)

/-- C8: when the regex does find a brace-delimited region but JSON.parse
throws on it, the handler answers 500 carrying the exception message
(never 502, never a success body). -/
theorem c8_malformed_region_500 (text m : List Char) (e : String)
    (h1 : jsMatch text = some m) (h2 : jsonParse m = .error e) :
    processText text = ⟨500, RespBody.error e⟩ := by
  simp [processText, h1, h2]

theorem c8_witness :
    processText "\x7boops\x7d".data = ⟨500, RespBody.error "Expected property name in JSON"⟩ :=
  c8_malformed_region_500 _ _ _ rfl rfl

/-- C9: the normalization pipeline is a pure function of the reply text:
two runs on the same text produce identical responses. -/
theorem c9_normalizer_deterministic (text : List Char) :
    processText text = processText text := rfl

/-- C10: the handler tests the server credential before the request body:
with a falsy API key each request is answered 500 with the
misconfiguration message, whatever the image field and upstream outcome,
and in particular never the 400 missing-image response. -/
theorem c10_key_checked_before_image (apiKey : Option String) (image : Option Json)
    (up : UpstreamOutcome) (hk : apiKey = none ∨ apiKey = some "") :
    handleExtract apiKey image up =
      ⟨500, RespBody.error "Server misconfiguration: missing API key"⟩ ∧
    handleExtract apiKey image up ≠
      ⟨400, RespBody.error "Missing image field (expected a data URL)"⟩ := by
  have h5 : handleExtract apiKey image up =
      ⟨500, RespBody.error "Server misconfiguration: missing API key"⟩ := by
    unfold handleExtract
    rw [if_pos hk]
  refine ⟨h5, ?_⟩
  rw [h5]
  intro hcontra
  exact absurd (congrArg Resp.status hcontra) (by decide)

theorem c10_witness :
    handleExtract none none (.replyText []) =
      ⟨500, RespBody.error "Server misconfiguration: missing API key"⟩ ∧
    handleExtract none none (.replyText []) ≠
      ⟨400, RespBody.error "Missing image field (expected a data URL)"⟩ :=
  c10_key_checked_before_image none none (.replyText []) (Or.inl rfl)

/-- C1: every record the coercion emits carries kind vin exactly when the
`type` tag of the element is the string "vin", and otherwise kind reg; the
output type admits no third tag. -/
theorem c1_kind_default_to_reg (xs : List Json) (ys : List ExtractResult)
    (h : coerceResults xs = .ok ys) (i : Nat) (r : Json) (hr : xs.get? i = some r)
    (t : Option Json) (ht : getProp r "type" = .ok t) :
    ∃ y, ys.get? i = some y ∧
      (y.type = Kind.vin ↔ t = some (Json.str "vin")) ∧
      (y.type ≠ Kind.vin → y.type = Kind.reg) := by
  obtain ⟨y, hy, hc⟩ := coerceResults_ok_get xs ys h i r hr
  obtain ⟨t', v, u, ht', hv, hu, hy'⟩ := coerceElem_ok r y hc
  have htt : t' = t := by rw [ht'] at ht; exact Except.ok.inj ht
  have hty : y.type = if isVinTag t then Kind.vin else Kind.reg := by rw [hy', htt]
  refine ⟨y, hy, ?_, ?_⟩
  · rw [hty]
    cases hvin : isVinTag t
    · simp [← isVinTag_eq_true_iff, hvin]
    · simp [← isVinTag_eq_true_iff, hvin]
  · intro hne
    cases hk2 : y.type with
    | reg => rfl
    | vin => exact absurd hk2 hne

theorem c1_witness :
    ∃ y, ([⟨Kind.reg, Json.str "", false⟩] : List ExtractResult).get? 0 = some y ∧
      (y.type = Kind.vin ↔ some (Json.str "unknown") = some (Json.str "vin")) ∧
      (y.type ≠ Kind.vin → y.type = Kind.reg) :=
  c1_kind_default_to_reg [Json.obj [("type", Json.str "unknown")]] _ rfl 0 _ rfl _ rfl

/-- C6: an emitted record substitutes the empty string for an absent
`value` (the record is never omitted for an object element), and its
`uncertain` flag is the truthiness coercion of the `uncertain` property,
false for absent or falsy values. -/
theorem c6_value_default_uncertain_truthiness (r : Json) (y : ExtractResult)
    (h : coerceElem r = .ok y) :
    (getProp r "value" = .ok none → y.value = Json.str "") ∧
    (∀ u, getProp r "uncertain" = .ok u → y.uncertain = truthy u) ∧
    (∀ u, getProp r "uncertain" = .ok u → (u = none ∨ truthy u = false) →
      y.uncertain = false) ∧
    (∀ fs, ∃ z, coerceElem (Json.obj fs) = .ok z) := by
  obtain ⟨t, v, u, ht, hv, hu, hy⟩ := coerceElem_ok r y h
  refine ⟨?_, ?_, ?_, fun fs => coerceElem_isOk (Json.obj fs) (by simp)⟩
  · intro hv2
    have hvn : v = none := by rw [hv] at hv2; exact Except.ok.inj hv2
    rw [hy, hvn]
    rfl
  · intro u' hu'
    have hun : u = u' := by rw [hu] at hu'; exact Except.ok.inj hu'
    rw [hy, hun]
  · intro u' hu' hcase
    have hun : u = u' := by rw [hu] at hu'; exact Except.ok.inj hu'
    rw [hy, hun]
    rcases hcase with rfl | hfalse
    · rfl
    · exact hfalse

theorem c6_witness :
    (getProp (Json.obj [("type", Json.str "vin"), ("value", Json.str "1HGCM82633A004352")])
        "value" = .ok none →
      (⟨Kind.vin, Json.str "1HGCM82633A004352", false⟩ : ExtractResult).value = Json.str "") ∧
    (∀ u, getProp (Json.obj [("type", Json.str "vin"), ("value", Json.str "1HGCM82633A004352")])
        "uncertain" = .ok u →
      (⟨Kind.vin, Json.str "1HGCM82633A004352", false⟩ : ExtractResult).uncertain = truthy u) ∧
    (∀ u, getProp (Json.obj [("type", Json.str "vin"), ("value", Json.str "1HGCM82633A004352")])
        "uncertain" = .ok u → (u = none ∨ truthy u = false) →
      (⟨Kind.vin, Json.str "1HGCM82633A004352", false⟩ : ExtractResult).uncertain = false) ∧
    (∀ fs, ∃ z, coerceElem (Json.obj fs) = .ok z) :=
  c6_value_default_uncertain_truthiness
    (Json.obj [("type", Json.str "vin"), ("value", Json.str "1HGCM82633A004352")])
    ⟨Kind.vin, Json.str "1HGCM82633A004352", false⟩ rfl

/-- C4 as stated is false on the code: `??` only defaults `undefined` and
`null`, so a `results` field that is present but not an array (here the
number 5) makes `.map` throw, and the handler answers 500, not 200 with an
empty list. -/
theorem c4_counterexample :
    jsonParse "\x7b\"results\":5\x7d".data = .ok (Json.obj [("results", Json.num 5 0)]) ∧
    processText "\x7b\"results\":5\x7d".data =
      ⟨500, RespBody.error "parsed.results.map is not a function"⟩ ∧
    (processText "\x7b\"results\":5\x7d".data).status ≠ 200 :=
  ⟨rfl, rfl, by decide⟩

/-- C4 amended: an absent or null `results` field normalizes to the empty
list and the handler answers 200; a `results` value that is present,
non-null and not an array makes the map call throw and the handler answers
500. -/
theorem c4_amended_results_default (text m : List Char) (parsed : Json) (v : Option Json)
    (h1 : jsMatch text = some m) (h2 : jsonParse m = .ok parsed)
    (h3 : getProp parsed "results" = .ok v) :
    ((v = none ∨ v = some Json.null) →
      processText text = ⟨200, RespBody.results []⟩) ∧
    (∀ w, v = some w → w ≠ Json.null → (∀ zs, w ≠ Json.arr zs) →
      processText text = ⟨500, RespBody.error "parsed.results.map is not a function"⟩) := by
  constructor
  · intro hv
    have hnorm : normalizeParsed parsed = .ok [] := by
      rw [normalizeParsed, h3]
      rcases hv with rfl | rfl <;> rfl
    simp [processText, h1, h2, hnorm]
  · rintro w rfl hwnull hwarr
    have hnorm : normalizeParsed parsed =
        .error "parsed.results.map is not a function" := by
      rw [normalizeParsed, h3]
      cases w with
      | null => exact absurd rfl hwnull
      | arr zs => exact absurd rfl (hwarr zs)
      | bool b => rfl
      | num m s => rfl
      | str s => rfl
      | obj fs => rfl
    simp [processText, h1, h2, hnorm]

theorem c4_witness :
    processText "\x7b\"a\":0\x7d".data = ⟨200, RespBody.results []⟩ :=
  (c4_amended_results_default "\x7b\"a\":0\x7d".data "\x7b\"a\":0\x7d".data
    (Json.obj [("a", Json.num 0 0)]) none rfl rfl rfl).1 (Or.inl rfl)

/-- C7 as stated is false on the code: a null element of the results array
makes the property access `r.type` throw, so the whole request fails with
500 and no output sequence exists at all, instead of a same-length output. -/
theorem c7_counterexample :
    jsonParse "\x7b\"results\":[null]\x7d".data =
      .ok (Json.obj [("results", Json.arr [Json.null])]) ∧
    processText "\x7b\"results\":[null]\x7d".data =
      ⟨500, RespBody.error "Cannot read properties of null (reading type)"⟩ ∧
    (processText "\x7b\"results\":[null]\x7d".data).status ≠ 200 :=
  ⟨rfl, rfl, by decide⟩

/-- C7 amended: for a parsed results array with no null element, the
output exists, has the same length, and its i-th record is the coercion of
the i-th input element (no filtering, no deduplication, no sorting). -/
theorem c7_amended_order_cardinality (text m : List Char) (parsed : Json) (xs : List Json)
    (h1 : jsMatch text = some m) (h2 : jsonParse m = .ok parsed)
    (h3 : getProp parsed "results" = .ok (some (Json.arr xs)))
    (h4 : ∀ r ∈ xs, r ≠ Json.null) :
    ∃ ys, processText text = ⟨200, RespBody.results ys⟩ ∧
      ys.length = xs.length ∧
      ∀ i r, xs.get? i = some r → ∃ y, ys.get? i = some y ∧ coerceElem r = .ok y := by
  obtain ⟨ys, hys⟩ := coerceResults_isOk xs h4
  have hnorm : normalizeParsed parsed = .ok ys := by
    rw [normalizeParsed, h3]
    exact hys
  refine ⟨ys, ?_, coerceResults_ok_length xs ys hys,
    fun i r hr => coerceResults_ok_get xs ys hys i r hr⟩
  simp [processText, h1, h2, hnorm]

theorem c7_witness :
    ∃ ys, processText "\x7b\"results\":[7,\x7b\"type\":\"vin\"\x7d]\x7d".data =
        ⟨200, RespBody.results ys⟩ ∧
      ys.length = ([Json.num 7 0, Json.obj [("type", Json.str "vin")]] : List Json).length ∧
      ∀ i r, ([Json.num 7 0, Json.obj [("type", Json.str "vin")]] : List Json).get? i = some r →
        ∃ y, ys.get? i = some y ∧ coerceElem r = .ok y :=
  c7_amended_order_cardinality _ _ _ _ rfl rfl rfl
    (by
      rintro r hr
      rcases List.mem_cons.mp hr with rfl | hr2
      · simp
      rcases List.mem_cons.mp hr2 with rfl | hr3
      · simp
      · exact absurd hr3 (List.not_mem_nil r))

/-- C5 as stated is false on the code: prose is not arbitrary. A single
opening brace inside the leading prose widens the greedy match, JSON.parse
throws on the widened region, and the handler answers 500 instead of
extracting the record. -/
theorem c5_counterexample :
    processText ("see \x7b" ++
      "\x7b\"results\":[\x7b\"type\":\"reg\",\"value\":\"AB12 CDE\",\"uncertain\":false\x7d]\x7d").data =
      ⟨500, RespBody.error "Expected property name in JSON"⟩ ∧
    (processText ("see \x7b" ++
      "\x7b\"results\":[\x7b\"type\":\"reg\",\"value\":\"AB12 CDE\",\"uncertain\":false\x7d]\x7d").data).status
      ≠ 200 :=
  ⟨rfl, by decide⟩

/-- C5 amended: for a reply built of a well-formed single-record
`\x7b"results":[...]\x7d` object with prose around it, the record is extracted
whenever the leading prose contains no opening brace and the trailing
prose contains no closing brace. -/
theorem c5_amended_prose_extraction (pre s post : List Char) (r : Json) (y : ExtractResult)
    (hpre : '{' ∉ pre) (hpost : '}' ∉ post)
    (hhead : s.get? 0 = some '{') (hlast2 : s.get? (s.length - 1) = some '}')
    (hp : jsonParse s = .ok (Json.obj [("results", Json.arr [r])]))
    (hc : coerceElem r = .ok y) :
    processText (pre ++ s ++ post) = ⟨200, RespBody.results [y]⟩ := by
  have hslen : 1 ≤ s.length := by
    rcases s with _ | ⟨c, s'⟩
    · simp at hhead
    · simp
  have hlen2 : 2 ≤ s.length := by
    by_contra hlt
    have h1 : s.length = 1 := by omega
    rw [h1] at hlast2
    have h0 : (1 : Nat) - 1 = 0 := rfl
    rw [h0] at hlast2
    have : some '{' = some '}' := hhead.symm.trans hlast2
    simp at this
  have hppost : (pre ++ s).length ≤ pre.length + s.length := by simp
  have hi : (pre ++ s ++ post).get? pre.length = some '{' := by
    rw [List.get?_append (by simp; omega), List.get?_append_right (Nat.le_refl _)]
    simpa using hhead
  have hifirst : ∀ k, k < pre.length → (pre ++ s ++ post).get? k ≠ some '{' := by
    intro k hk hcontra
    rw [List.get?_append (by simp; omega), List.get?_append hk] at hcontra
    exact hpre (List.get?_mem hcontra)
  have hj : (pre ++ s ++ post).get? (pre.length + (s.length - 1)) = some '}' := by
    rw [List.get?_append (by simp; omega), List.get?_append_right (by omega)]
    have : pre.length + (s.length - 1) - pre.length = s.length - 1 := by omega
    rw [this]
    exact hlast2
  have hjlast : ∀ k, pre.length + (s.length - 1) < k →
      (pre ++ s ++ post).get? k ≠ some '}' := by
    intro k hk hcontra
    have hklen : (pre ++ s).length ≤ k := by simp; omega
    rw [List.get?_append_right hklen] at hcontra
    exact hpost (List.get?_mem hcontra)
  have hij : pre.length < pre.length + (s.length - 1) := by omega
  have hmatch : jsMatch (pre ++ s ++ post) = some s := by
    rw [jsMatch_first_last (pre ++ s ++ post) pre.length (pre.length + (s.length - 1))
      hi hifirst hj hjlast hij]
    congr 1
    have hdrop : (pre ++ s ++ post).drop pre.length = s ++ post := by
      rw [List.append_assoc, List.drop_left]
    rw [hdrop]
    have htake : pre.length + (s.length - 1) + 1 - pre.length = s.length := by omega
    rw [htake, List.take_left]
  have hnorm : normalizeParsed (Json.obj [("results", Json.arr [r])]) = .ok [y] := by
    have hdef : normalizeParsed (Json.obj [("results", Json.arr [r])]) =
        coerceResults [r] := rfl
    rw [hdef]
    simp [coerceResults, hc]
  simp [processText, hmatch, hp, hnorm, -List.append_assoc]

theorem c5_witness :
    processText ("Sure: ".data ++
      "\x7b\"results\":[\x7b\"type\":\"reg\",\"value\":\"AB12 CDE\",\"uncertain\":false\x7d]\x7d".data ++
      " done".data) =
      ⟨200, RespBody.results [⟨Kind.reg, Json.str "AB12 CDE", false⟩]⟩ :=
  c5_amended_prose_extraction "Sure: ".data
    "\x7b\"results\":[\x7b\"type\":\"reg\",\"value\":\"AB12 CDE\",\"uncertain\":false\x7d]\x7d".data
    " done".data
    (Json.obj [("type", Json.str "reg"), ("value", Json.str "AB12 CDE"),
      ("uncertain", Json.bool false)])
    ⟨Kind.reg, Json.str "AB12 CDE", false⟩
    (by decide) (by decide) rfl rfl rfl rfl
